import Mathlib

/-!
Verification of the metapath composition and performance-analysis engine of
the pathfilter repository (scripts/metapaths).

The scripts build boolean sparse adjacency matrices (GraphBLAS, dtype BOOL)
keyed by (sourceType, predicate, targetType), extend the catalog with
transposed matrices for non-symmetric predicates, and chain them with the
`any_pair` semiring (boolean existential product).  We embed such matrices
in COO form: a shape together with the list of stored coordinates.
-/

/-- A boolean sparse matrix: shape plus the list of stored (row, col)
coordinates (GraphBLAS COO form; `dup_op=any` makes duplicates harmless,
so coordinate-list membership is the stored pattern). -/
structure BMat where
  nrows : Nat
  ncols : Nat
  entries : List (Nat × Nat)
deriving DecidableEq, Repr

namespace BMat

/-- Entry test: true iff the coordinate is stored. -/
def entry (M : BMat) (i j : Nat) : Bool :=
  M.entries.any (fun p => p.1 == i && p.2 == j)

/-- Well-formedness: every stored coordinate lies inside the shape
(GraphBLAS rejects out-of-bounds coordinates at construction). -/
def Wf (M : BMat) : Prop :=
  ∀ p ∈ M.entries, p.1 < M.nrows ∧ p.2 < M.ncols

instance (M : BMat) : Decidable M.Wf := by
  unfold Wf; infer_instance

/-- `nvals`: the number of distinct in-shape coordinates whose entry is true. -/
def nnz (M : BMat) : Nat :=
  ((Finset.range M.nrows ×ˢ Finset.range M.ncols).filter
    (fun p => M.entry p.1 p.2)).card

/-- Matrix transpose `matrix.T` (a flipped view of the same stored edges). -/
def T (M : BMat) : BMat :=
  ⟨M.ncols, M.nrows, M.entries.map Prod.swap⟩

end BMat

/-- All in-shape coordinates, row-major. -/
def coordGrid (m n : Nat) : List (Nat × Nat) :=
  (List.range m).flatMap (fun i => (List.range n).map (fun j => (i, j)))

/-- `matrix1.mxm(matrix2, gb.semiring.any_pair)`: the boolean existential
product.  An output cell is stored iff some inner index connects the two
operands (`any` reduce of `pair`, i.e. OR of AND). -/
def mxm (A B : BMat) : BMat :=
  ⟨A.nrows, B.ncols,
   (coordGrid A.nrows B.ncols).filter
     (fun p => (List.range A.ncols).any (fun k => A.entry p.1 k && B.entry k p.2))⟩

/-- `result_ABC.ewise_mult(onehop_matrix, gb.binary.pair)`: entrywise AND
(intersection of stored patterns), on the left operand's shape. -/
def ewiseMult (A B : BMat) : BMat :=
  ⟨A.nrows, A.ncols, A.entries.filter (fun p => B.entry p.1 p.2)⟩

/-- One overlap table row as emitted by the OverlapEvaluator: counts of the
3-hop matrix, the 1-hop matrix, their entrywise-AND intersection, and the
grid size of the composed result (metapath label columns carry no data the
claims depend on and are omitted). -/
structure OverlapRow where
  threeHopCount : Nat
  oneHopCount : Nat
  overlapCount : Nat
  totalPossible : Nat
deriving DecidableEq, Repr

/-- The row the overlap loop writes for a composed result and one stored
(or aggregated) 1-hop matrix: `total_possible = result_ABC.nrows *
result_ABC.ncols`, `overlap = ewise_mult(..., pair).nvals`. -/
def overlapRowOf (resultABC onehop : BMat) : OverlapRow :=
  ⟨resultABC.nnz, onehop.nnz, (ewiseMult resultABC onehop).nnz,
   resultABC.nrows * resultABC.ncols⟩

/-- The four confusion cells derived from a row in
analyze_3hop_prediction.main: `tp = overlap`, `fp = max(0, hop3 - overlap)`,
`fn = max(0, hop1 - overlap)`, `tn = max(0, total - hop3 - hop1 + overlap)`
(Python ints, so signed arithmetic before the clamps). -/
structure Confusion where
  tp : Int
  fp : Int
  fn : Int
  tn : Int
deriving DecidableEq, Repr

def confusionOf (r : OverlapRow) : Confusion :=
  { tp := r.overlapCount
  , fp := max 0 ((r.threeHopCount : Int) - r.overlapCount)
  , fn := max 0 ((r.oneHopCount : Int) - r.overlapCount)
  , tn := max 0 ((r.totalPossible : Int) - r.threeHopCount - r.oneHopCount
      + r.overlapCount) }

/-- A float that may carry the `np.inf` sentinel; the finite values arising
here are ratios of integers and are modelled exactly as rationals. -/
inductive FVal where
  | val (q : ℚ)
  | inf
deriving DecidableEq, Repr

/-- Python's `num / den if den > 0 else 0.0` idiom used throughout
calculate_metrics (each guard in the source tests exactly the denominator
of the ratio it guards). -/
def pyDiv (num den : ℚ) : ℚ :=
  if 0 < den then num / den else 0

/-- The ratio fields of calculate_metrics (analyze_3hop_prediction.py),
named after the keys of the dict the source returns.  MCC needs a
floating-point square root and no claim depends on it, so that one field
is not carried over. -/
structure Metrics where
  Precision : ℚ
  Recall : ℚ
  Specificity : ℚ
  NPV : ℚ
  Accuracy : ℚ
  Balanced_Accuracy : ℚ
  F1 : ℚ
  TPR : ℚ
  FPR : ℚ
  FNR : ℚ
  PLR : FVal
  NLR : FVal
deriving DecidableEq, Repr

def calculate_metrics (tp fp fn tn : Nat) : Metrics :=
  let total : ℚ := (tp : ℚ) + fp + fn + tn
  let Precision := pyDiv tp ((tp : ℚ) + fp)
  let Recall := pyDiv tp ((tp : ℚ) + fn)
  let Specificity := pyDiv tn ((tn : ℚ) + fp)
  let NPV := pyDiv tn ((tn : ℚ) + fn)
  let Accuracy := pyDiv ((tp : ℚ) + tn) total
  let F1 := pyDiv (2 * (Precision * Recall)) (Precision + Recall)
  let TPR := Recall
  let FPR := pyDiv fp ((fp : ℚ) + tn)
  let FNR := pyDiv fn ((fn : ℚ) + tp)
  let Balanced_Accuracy := (TPR + Specificity) / 2
  let PLR := if 0 < FPR then FVal.val (TPR / FPR) else FVal.inf
  let NLR := if 0 < Specificity then FVal.val (FNR / Specificity) else FVal.inf
  ⟨Precision, Recall, Specificity, NPV, Accuracy, Balanced_Accuracy, F1,
   TPR, FPR, FNR, PLR, NLR⟩

/-- The fixed nonzero-count size ladder shared by estimate_total_runtime
and generate_benchmark_samples. -/
inductive Bucket where
  | tiny
  | small
  | medium
  | large
  | xlarge
  | xxlarge
  | huge
deriving DecidableEq, Repr

def categorize_bucket (ab_edges : Nat) : Bucket :=
  if ab_edges < 1000 then .tiny
  else if ab_edges < 10000 then .small
  else if ab_edges < 100000 then .medium
  else if ab_edges < 1000000 then .large
  else if ab_edges < 10000000 then .xlarge
  else if ab_edges < 100000000 then .xxlarge
  else .huge

/-- The fixed bucket order both scripts iterate in. -/
def bucketList : List Bucket :=
  [.tiny, .small, .medium, .large, .xlarge, .xxlarge, .huge]

/-- One catalog entry of `all_matrices`: a typed relation key together with
its (possibly transposed) boolean matrix. -/
structure RelMat where
  src : String
  pred : String
  tgt : String
  dir : Char
  mat : BMat
deriving DecidableEq, Repr

/-- `by_source_type[ty]`: the catalog relations whose source type is `ty`
(an absent dictionary key is the empty list). -/
def bySourceType (L : List RelMat) (ty : String) : List RelMat :=
  L.filter (fun e => e.src == ty)

/-- The triples of the claimed Composer enumeration: every e1, every e2
whose source type equals e1's target type, every e3 whose source type
equals e2's target type — the pure 3-level type-keyed nested join. -/
def enumTriples (L : List RelMat) : List (RelMat × RelMat × RelMat) :=
  L.flatMap (fun e1 => (bySourceType L e1.tgt).flatMap (fun e2 =>
    (bySourceType L e2.tgt).map (fun e3 => (e1, e2, e3))))

/-- Per-(e1,e2) step of estimate_runtime: `continue` on dimension mismatch,
compute A@B, `continue` when it is empty, otherwise put every Matrix3
candidate count into A@B's size bucket. -/
def estimatorPairContrib (L : List RelMat) (e1 e2 : RelMat) : Option (Bucket × Nat) :=
  if e1.mat.ncols == e2.mat.nrows then
    let ab_edges := (mxm e1.mat e2.mat).nnz
    if ab_edges == 0 then none
    else some (categorize_bucket ab_edges, (bySourceType L e2.tgt).length)
  else none

def estimatorPairs (L : List RelMat) : List (Bucket × Nat) :=
  L.flatMap (fun e1 => (bySourceType L e1.tgt).filterMap (estimatorPairContrib L e1))

/-- `size_buckets[bucket]` after the estimator's double loop: the summed
Matrix3 iteration counts attributed to that bucket. -/
def size_buckets (L : List RelMat) (b : Bucket) : Nat :=
  (((estimatorPairs L).filter (fun p => p.1 == b)).map (fun p => p.2)).sum

/-- The (e1,e2,e3) triples whose innermost loop the Composer in
analyze_3hop_overlap actually reaches: the loop `continue`s on an (e1,e2)
dimension mismatch and on an empty A@B before iterating Matrix3. -/
def enumTriplesReached (L : List RelMat) : List (RelMat × RelMat × RelMat) :=
  L.flatMap (fun e1 => (bySourceType L e1.tgt).flatMap (fun e2 =>
    if e1.mat.ncols == e2.mat.nrows then
      if (mxm e1.mat e2.mat).nnz == 0 then []
      else (bySourceType L e2.tgt).map (fun e3 => (e1, e2, e3))
    else []))

/-- `min_samples`: the fixed per-bucket minimum sample counts of
generate_benchmark_samples. -/
def min_samples : Bucket → Nat
  | .tiny => 400
  | .small => 200
  | .medium => 150
  | .large => 100
  | .xlarge => 75
  | .xxlarge => 50
  | .huge => 25

/-- Phase 1 of generate_samples: walk the buckets in the fixed order,
skip empty buckets, allocate `min(min_samples[bucket], available,
remaining_budget)` and decrement the remaining budget.  Returns the
allocation batches (the `(bucket, item)` pairs appended to `samples`,
compressed to a per-batch count) with the leftover budget. -/
def allocateMinimums (pop : Bucket → Nat) :
    List Bucket → Nat → List (Bucket × Nat) × Nat
  | [], rem => ([], rem)
  | b :: bs, rem =>
    if pop b = 0 then allocateMinimums pop bs rem
    else
      let alloc := min (min_samples b) (min (pop b) rem)
      let rest := allocateMinimums pop bs (rem - alloc)
      ((b, alloc) :: rest.1, rest.2)

/-- Samples recorded for a bucket: the code counts
`len([s for s in samples if s[0] == bucket])`; with batches compressed to
counts this is the sum of the bucket's batch sizes. -/
def countIn (samples : List (Bucket × Nat)) (b : Bucket) : Nat :=
  ((samples.filter (fun s => s.1 == b)).map (fun s => s.2)).sum

/-- Phase 2 of generate_samples: for each nonempty bucket, add
`int(remaining_budget * population / total)` more samples, capped by the
population minus what was already sampled there, skipping zero additions. -/
def allocateProportional (pop : Bucket → Nat) (total rem : Nat)
    (alreadyIn : Bucket → Nat) : List Bucket → List (Bucket × Nat)
  | [] => []
  | b :: bs =>
    let rest := allocateProportional pop total rem alreadyIn bs
    if pop b = 0 then rest
    else
      let extra := rem * pop b / total
      if 0 < extra then
        let canAdd := min extra (pop b - alreadyIn b)
        if 0 < canAdd then (b, canAdd) :: rest else rest
      else rest

/-- The per-bucket sample counts generate_samples ends up with, as a
function of the bucket populations and the requested total. -/
def generate_sample_counts (pop : Bucket → Nat) (total_samples : Nat) :
    Bucket → Nat :=
  let total_iterations := (bucketList.map pop).sum
  let p1 := allocateMinimums pop bucketList total_samples
  let p2 := if 0 < p1.2 then
      allocateProportional pop total_iterations p1.2 (countIn p1.1) bucketList
    else []
  fun b => countIn (p1.1 ++ p2) b

/-- The stored edge counts of one direction_analysis.tsv row (the timing
and RSS fields are wall-clock measurements outside the embedding). -/
structure DirSample where
  forward_step1_edges : Nat
  forward_result_edges : Nat
  reverse_step1_edges : Nat
  reverse_result_edges : Nat
deriving DecidableEq, Repr

/-- The per-chain body of analyze_direction_performance: compute the
forward intermediate and `continue` (recording nothing) if it is empty;
compute the forward result; compute the reverse intermediate and
`continue` (recording nothing, though forward was already measured) if it
is empty; otherwise write exactly one row holding both directions. -/
def processChain (m1 m2 m3 : BMat) : Option DirSample :=
  let forward_intermediate := mxm m1 m2
  if forward_intermediate.nnz = 0 then none
  else
    let forward_result := mxm forward_intermediate m3
    let reverse_intermediate := mxm m3.T m2.T
    if reverse_intermediate.nnz = 0 then none
    else
      let reverse_result := mxm reverse_intermediate m1.T
      some ⟨forward_intermediate.nnz, forward_result.nnz,
            reverse_intermediate.nnz, reverse_result.nnz⟩

/-- One KGX edge record (the fields build_matrices reads). -/
structure Edge where
  subject : String
  predicate : String
  object : String
deriving DecidableEq, Repr

/-- `predicate.replace('biolink:', '')` as applied to CURIE-style
predicates: drop the 8-character `biolink:` prefix when present. -/
def removeBiolink (s : String) : String :=
  if s.toList.take 8 = "biolink:".toList then String.mk (s.toList.drop 8)
  else s

/-- The grouping key an edge contributes to, or none when the edge is
skipped: `biolink:subclass_of` edges are excluded, as is any edge whose
subject or object has no resolved type. -/
def edgeKey (node_types : String → Option String) (e : Edge) :
    Option (String × String × String) :=
  if e.predicate = "biolink:subclass_of" then none
  else
    match node_types e.subject, node_types e.object with
    | some src_type, some tgt_type =>
        some (src_type, removeBiolink e.predicate, tgt_type)
    | _, _ => none

/-- First-observation index assignment: append a node to its type's list
the first time it is seen. -/
def addNode (seen : List String) (x : String) : List String :=
  if x ∈ seen then seen else seen ++ [x]

/-- One step of the ingestion pass for a single type's index: a surviving
edge registers its subject under the subject's type, then its object under
the object's type. -/
def observeEdge (node_types : String → Option String) (ty : String)
    (seen : List String) (e : Edge) : List String :=
  if (edgeKey node_types e).isSome then
    let seen1 := if node_types e.subject = some ty then addNode seen e.subject
      else seen
    if node_types e.object = some ty then addNode seen1 e.object else seen1
  else seen

/-- `node_to_idx[ty]` after the full edge pass, as the ordered list of
first-seen nodes of that type. -/
def typeNodes (node_types : String → Option String) (edges : List Edge)
    (ty : String) : List String :=
  edges.foldl (observeEdge node_types ty) []

/-- `len(node_to_idx[ty])` after the full pass: every matrix built for a
group takes its row/column counts from this one map. -/
def typeSize (node_types : String → Option String) (edges : List Edge)
    (ty : String) : Nat :=
  (typeNodes node_types edges ty).length

/-- The distinct `(source_type, predicate, target_type)` grouping keys in
first-seen order. -/
def tripleKeys (node_types : String → Option String) (edges : List Edge) :
    List (String × String × String) :=
  edges.foldl (fun acc e =>
    match edgeKey node_types e with
    | some k => if k ∈ acc then acc else acc ++ [k]
    | none => acc) []

/-- The (subject, object) pairs grouped under one key. -/
def edgePairsFor (node_types : String → Option String) (edges : List Edge)
    (k : String × String × String) : List (String × String) :=
  edges.filterMap (fun e =>
    if edgeKey node_types e = some k then some (e.subject, e.object) else none)

/-- `gb.Matrix.from_coo(rows, cols, ..., nrows=len(node_to_idx[src]),
ncols=len(node_to_idx[tgt]))` for one group: coordinates are the type-local
indices, the shape is the type's complete index size after ingestion. -/
def matrixFor (node_types : String → Option String) (edges : List Edge)
    (k : String × String × String) : BMat :=
  ⟨typeSize node_types edges k.1, typeSize node_types edges k.2.2,
   (edgePairsFor node_types edges k).map (fun p =>
     ((typeNodes node_types edges k.1).indexOf p.1,
      (typeNodes node_types edges k.2.2).indexOf p.2))⟩

/-- SYMMETRIC_PREDICATES from the biolink model (identical in all four
scripts). -/
def symmetric_predicates : List String :=
  ["biolink:interacts_with", "biolink:coexists_with",
   "biolink:correlated_with", "biolink:associated_with",
   "biolink:related_to", "biolink:similar_to", "biolink:homologous_to",
   "biolink:orthologous_to", "biolink:paralogous_to",
   "biolink:xenologous_to"]

/-- build_matrices: one forward relation per grouping key. -/
def build_matrices (node_types : String → Option String)
    (edges : List Edge) : List RelMat :=
  (tripleKeys node_types edges).map (fun k =>
    ⟨k.1, k.2.1, k.2.2, 'F', matrixFor node_types edges k⟩)

/-- The extended matrix list with inverses built at the start of
analyze_3hop_overlap: each forward matrix, plus (unless its predicate is
symmetric) the transposed matrix under the swapped type key. -/
def all_matrices (node_types : String → Option String)
    (edges : List Edge) : List RelMat :=
  (build_matrices node_types edges).flatMap (fun r =>
    if ("biolink:" ++ r.pred) ∈ symmetric_predicates then [r]
    else [r, ⟨r.tgt, r.pred, r.src, 'R', BMat.T r.mat⟩])

/-- Concrete node-type resolver for witnesses. -/
def ntWitness : String → Option String := fun x =>
  if x = "a" then some "A"
  else if x = "b" then some "B"
  else if x = "c" then some "C"
  else if x = "d" then some "D"
  else none

/-- Concrete edge list for witnesses. -/
def edgesWitness : List Edge :=
  [⟨"a", "p", "b"⟩, ⟨"b", "q", "c"⟩, ⟨"c", "s", "d"⟩]

/-- A bucket-population vector that starves the small bucket: the claimed
minimum guarantee fails when the budget runs out during the tiny bucket. -/
def starvedPops : Bucket → Nat
  | .tiny => 400
  | .small => 200
  | _ => 0

/-- Catalog whose single chained triple has an empty first intermediate:
the estimator counts nothing while the type join enumerates one triple. -/
def emptyABCatalog : List RelMat :=
  [⟨"A", "p", "B", 'F', ⟨1, 1, []⟩⟩,
   ⟨"B", "p", "C", 'F', ⟨1, 1, []⟩⟩,
   ⟨"C", "p", "D", 'F', ⟨1, 1, []⟩⟩]

namespace BMat

theorem entry_iff_mem (M : BMat) (i j : Nat) :
    M.entry i j = true ↔ (i, j) ∈ M.entries := by
  unfold entry
  rw [List.any_eq_true]
  constructor
  · rintro ⟨⟨a, b⟩, hp, hab⟩
    simp only [Bool.and_eq_true, beq_iff_eq] at hab
    obtain ⟨ha, hb⟩ := hab
    subst ha; subst hb
    exact hp
  · intro h
    exact ⟨(i, j), h, by simp⟩

theorem mem_coordGrid {m n : Nat} {p : Nat × Nat} :
    p ∈ coordGrid m n ↔ p.1 < m ∧ p.2 < n := by
  unfold coordGrid
  cases p with
  | mk i j =>
    simp only [List.mem_flatMap, List.mem_map, List.mem_range, Prod.mk.injEq]
    constructor
    · rintro ⟨a, ha, b, hb, h1, h2⟩
      subst h1; subst h2; exact ⟨ha, hb⟩
    · rintro ⟨hi, hj⟩
      exact ⟨i, hi, j, hj, rfl, rfl⟩

theorem mxm_entry (A B : BMat) (i j : Nat) :
    (mxm A B).entry i j = true ↔
      i < A.nrows ∧ j < B.ncols ∧
        ∃ k < A.ncols, A.entry i k = true ∧ B.entry k j = true := by
  rw [entry_iff_mem]
  show (i, j) ∈ List.filter _ _ ↔ _
  rw [List.mem_filter, mem_coordGrid]
  simp only [List.any_eq_true, List.mem_range, Bool.and_eq_true]
  tauto

theorem wf_mxm (A B : BMat) : (mxm A B).Wf := by
  intro p hp
  have : p ∈ coordGrid A.nrows B.ncols := List.mem_of_mem_filter hp
  exact mem_coordGrid.mp this

theorem wf_T {M : BMat} (h : M.Wf) : M.T.Wf := by
  rintro ⟨a, b⟩ hp
  simp only [T, List.mem_map] at hp
  obtain ⟨q, hq, hqs⟩ := hp
  have := h q hq
  cases q with
  | mk x y =>
    simp [Prod.swap] at hqs
    obtain ⟨h1, h2⟩ := hqs
    subst h1; subst h2
    exact ⟨this.2, this.1⟩

theorem T_entry (M : BMat) (i j : Nat) : M.T.entry i j = M.entry j i := by
  rw [Bool.eq_iff_iff, entry_iff_mem, entry_iff_mem]
  show (i, j) ∈ M.entries.map Prod.swap ↔ _
  rw [List.mem_map]
  constructor
  · rintro ⟨⟨x, y⟩, hq, hqs⟩
    simp only [Prod.swap_prod_mk, Prod.mk.injEq] at hqs
    obtain ⟨h1, h2⟩ := hqs
    subst h1; subst h2
    exact hq
  · intro h
    exact ⟨(j, i), h, rfl⟩

/-- Existential characterisation of the product entry for well-formed
operands: the grid bounds and the inner-range bound are implied by
well-formedness, leaving pure path existence. -/
theorem mxm_entry_wf {A B : BMat} (hA : A.Wf) (hB : B.Wf) (i j : Nat) :
    (mxm A B).entry i j = true ↔
      ∃ k, A.entry i k = true ∧ B.entry k j = true := by
  rw [mxm_entry]
  constructor
  · rintro ⟨_, _, k, _, hak, hbk⟩
    exact ⟨k, hak, hbk⟩
  · rintro ⟨k, hak, hbk⟩
    have h1 := hA _ ((entry_iff_mem A i k).mp hak)
    have h2 := hB _ ((entry_iff_mem B k j).mp hbk)
    exact ⟨h1.1, h2.2, k, h1.2, hak, hbk⟩

theorem ewiseMult_entry (A B : BMat) (i j : Nat) :
    (ewiseMult A B).entry i j = (A.entry i j && B.entry i j) := by
  rw [Bool.eq_iff_iff, Bool.and_eq_true, entry_iff_mem, entry_iff_mem]
  show (i, j) ∈ A.entries.filter _ ↔ _
  rw [List.mem_filter]

@[simp] theorem mxm_nrows (A B : BMat) : (mxm A B).nrows = A.nrows := rfl

@[simp] theorem mxm_ncols (A B : BMat) : (mxm A B).ncols = B.ncols := rfl

@[simp] theorem T_nrows (M : BMat) : M.T.nrows = M.ncols := rfl

@[simp] theorem T_ncols (M : BMat) : M.T.ncols = M.nrows := rfl

/-- Two matrices that are transposed views of one another store the same
number of cells. -/
theorem nnz_transpose_pattern (M N : BMat) (hr : M.nrows = N.ncols)
    (hc : M.ncols = N.nrows) (h : ∀ i j, M.entry i j = N.entry j i) :
    M.nnz = N.nnz := by
  unfold nnz
  apply Finset.card_bij (fun p _ => Prod.swap p)
  · rintro ⟨a, b⟩ ha
    simp only [Finset.mem_filter, Finset.mem_product, Finset.mem_range,
      Prod.swap_prod_mk] at ha ⊢
    exact ⟨⟨hc ▸ ha.1.2, hr ▸ ha.1.1⟩, by rw [← h a b]; exact ha.2⟩
  · rintro ⟨a, b⟩ _ ⟨c, d⟩ _ hs
    simp only [Prod.swap_prod_mk, Prod.mk.injEq] at hs
    exact Prod.ext_iff.mpr ⟨hs.2, hs.1⟩
  · rintro ⟨a, b⟩ hb
    simp only [Finset.mem_filter, Finset.mem_product, Finset.mem_range] at hb
    refine ⟨(b, a), ?_, rfl⟩
    simp only [Finset.mem_filter, Finset.mem_product, Finset.mem_range]
    exact ⟨⟨hr ▸ hb.1.2, hc ▸ hb.1.1⟩, by rw [h b a]; exact hb.2⟩

end BMat

open BMat

/-- C1: the composed entry is path existence over the inner index;
multiplicities never enter (the pattern is a set). -/
theorem composeTwo_entry_exists (M1 M2 : BMat) (h1 : M1.Wf) (h2 : M2.Wf)
    (hdim : M1.ncols = M2.nrows) (i j : Nat) :
    (mxm M1 M2).entry i j = true ↔
      ∃ k, M1.entry i k = true ∧ M2.entry k j = true :=
  mxm_entry_wf h1 h2 i j

/-- Witness for C1 at a concrete pair of matrices. -/
theorem composeTwo_entry_exists_witness :
    (mxm ⟨1, 2, [(0, 1)]⟩ ⟨2, 1, [(1, 0)]⟩).entry 0 0 = true ↔
      ∃ k, (BMat.mk 1 2 [(0, 1)]).entry 0 k = true ∧
        (BMat.mk 2 1 [(1, 0)]).entry k 0 = true :=
  composeTwo_entry_exists ⟨1, 2, [(0, 1)]⟩ ⟨2, 1, [(1, 0)]⟩
    (by decide) (by decide) rfl 0 0

/-- C6: composing left-nested and right-nested yields the same stored
pattern for a dimension-compatible chain. -/
theorem compose_assoc_pattern (A B C : BMat)
    (hd1 : A.ncols = B.nrows) (hd2 : B.ncols = C.nrows) :
    ∀ i j, (mxm (mxm A B) C).entry i j = (mxm A (mxm B C)).entry i j := by
  intro i j
  rw [Bool.eq_iff_iff]
  simp only [mxm_entry, mxm_nrows, mxm_ncols]
  constructor
  · rintro ⟨hi, hj, m, hm, ⟨-, -, k, hk, ha, hb⟩, hc⟩
    exact ⟨hi, hj, k, hk, ha, hd1 ▸ hk, hj, m, hm, hb, hc⟩
  · rintro ⟨hi, hj, k, hk, ha, -, -, m, hm, hb, hc⟩
    exact ⟨hi, hj, m, hm, ⟨hi, hm, k, hk, ha, hb⟩, hc⟩

/-- Witness for C6 at a concrete chain of matrices and a concrete cell. -/
theorem compose_assoc_pattern_witness :
    (mxm (mxm ⟨1, 2, [(0, 0)]⟩ ⟨2, 2, [(0, 1)]⟩) ⟨2, 1, [(1, 0)]⟩).entry 0 0
      = (mxm ⟨1, 2, [(0, 0)]⟩ (mxm ⟨2, 2, [(0, 1)]⟩ ⟨2, 1, [(1, 0)]⟩)).entry 0 0 :=
  compose_assoc_pattern ⟨1, 2, [(0, 0)]⟩ ⟨2, 2, [(0, 1)]⟩ ⟨2, 1, [(1, 0)]⟩ rfl rfl 0 0

/-- C5: the forward evaluation (M1⊗M2)⊗M3 and the reverse evaluation
(M3ᵗ⊗M2ᵗ)⊗M1ᵗ of the same chain store equally many cells, whatever the
two intermediates look like. -/
theorem forward_reverse_nnz (M1 M2 M3 : BMat)
    (h1 : M1.Wf) (h2 : M2.Wf) (h3 : M3.Wf)
    (hd1 : M1.ncols = M2.nrows) (hd2 : M2.ncols = M3.nrows) :
    (mxm (mxm M1 M2) M3).nnz = (mxm (mxm M3.T M2.T) M1.T).nnz := by
  apply nnz_transpose_pattern _ _ rfl rfl
  intro i j
  rw [Bool.eq_iff_iff]
  rw [mxm_entry_wf (wf_mxm M1 M2) h3 i j,
      mxm_entry_wf (wf_mxm M3.T M2.T) (wf_T h1) j i]
  simp only [mxm_entry_wf h1 h2, mxm_entry_wf (wf_T h3) (wf_T h2), T_entry]
  constructor
  · rintro ⟨m, ⟨k, ha, hb⟩, hc⟩
    exact ⟨k, ⟨m, hc, hb⟩, ha⟩
  · rintro ⟨k, ⟨m, hc, hb⟩, ha⟩
    exact ⟨m, ⟨k, ha, hb⟩, hc⟩

namespace BMat

@[simp] theorem ewiseMult_nrows (A B : BMat) : (ewiseMult A B).nrows = A.nrows := rfl

@[simp] theorem ewiseMult_ncols (A B : BMat) : (ewiseMult A B).ncols = A.ncols := rfl

theorem nnz_le_size (M : BMat) : M.nnz ≤ M.nrows * M.ncols := by
  unfold nnz
  calc (Finset.filter _ _).card ≤ (Finset.range M.nrows ×ˢ Finset.range M.ncols).card :=
        Finset.card_le_card (Finset.filter_subset _ _)
    _ = M.nrows * M.ncols := by
        rw [Finset.card_product, Finset.card_range, Finset.card_range]

theorem nnz_ewiseMult_le_left (A B : BMat) : (ewiseMult A B).nnz ≤ A.nnz := by
  unfold nnz
  apply Finset.card_le_card
  intro p hp
  simp only [Finset.mem_filter] at hp ⊢
  refine ⟨hp.1, ?_⟩
  have := hp.2
  rw [ewiseMult_entry, Bool.and_eq_true] at this
  exact this.1

theorem nnz_ewiseMult_le_right (A B : BMat)
    (hr : A.nrows = B.nrows) (hc : A.ncols = B.ncols) :
    (ewiseMult A B).nnz ≤ B.nnz := by
  unfold nnz
  rw [← hr, ← hc]
  apply Finset.card_le_card
  intro p hp
  simp only [Finset.mem_filter] at hp ⊢
  refine ⟨hp.1, ?_⟩
  have := hp.2
  rw [ewiseMult_entry, Bool.and_eq_true] at this
  exact this.2

/-- Inclusion–exclusion bound: distinct stored cells of two same-shaped
matrices, minus the shared ones, fit in the grid. -/
theorem nnz_union_bound (A B : BMat)
    (hr : A.nrows = B.nrows) (hc : A.ncols = B.ncols) :
    A.nnz + B.nnz ≤ A.nrows * A.ncols + (ewiseMult A B).nnz := by
  classical
  unfold nnz
  simp only [ewiseMult_nrows, ewiseMult_ncols]
  rw [← hr, ← hc]
  set G := Finset.range A.nrows ×ˢ Finset.range A.ncols with hG
  have hinter : G.filter (fun p => (ewiseMult A B).entry p.1 p.2) =
      G.filter (fun p => A.entry p.1 p.2) ∩ G.filter (fun p => B.entry p.1 p.2) := by
    rw [← Finset.filter_and]
    apply Finset.filter_congr
    intro p _
    rw [ewiseMult_entry, Bool.and_eq_true]
  rw [hinter]
  have hcard := Finset.card_union_add_card_inter
    (G.filter (fun p => A.entry p.1 p.2)) (G.filter (fun p => B.entry p.1 p.2))
  have hsub : (G.filter (fun p => A.entry p.1 p.2) ∪
      G.filter (fun p => B.entry p.1 p.2)).card ≤ A.nrows * A.ncols := by
    calc (G.filter (fun p => A.entry p.1 p.2) ∪
        G.filter (fun p => B.entry p.1 p.2)).card ≤ G.card :=
          Finset.card_le_card
            (Finset.union_subset (Finset.filter_subset _ _) (Finset.filter_subset _ _))
      _ = A.nrows * A.ncols := by
          rw [hG, Finset.card_product, Finset.card_range, Finset.card_range]
  omega

end BMat

/-- C2: the four confusion cells of every row the pipeline emits sum to
`totalPossible`. -/
theorem confusion_sum_eq_totalPossible (A B : BMat)
    (hr : A.nrows = B.nrows) (hc : A.ncols = B.ncols) :
    (confusionOf (overlapRowOf A B)).tp + (confusionOf (overlapRowOf A B)).fp
      + (confusionOf (overlapRowOf A B)).fn + (confusionOf (overlapRowOf A B)).tn
      = ((overlapRowOf A B).totalPossible : Int) := by
  have h1 := BMat.nnz_ewiseMult_le_left A B
  have h2 := BMat.nnz_ewiseMult_le_right A B hr hc
  have h3 := BMat.nnz_union_bound A B hr hc
  simp only [confusionOf, overlapRowOf]
  omega

/-- Witness for C2 at a concrete pair of same-shaped matrices. -/
theorem confusion_sum_eq_totalPossible_witness :
    (confusionOf (overlapRowOf ⟨2, 2, [(0, 0), (0, 1)]⟩ ⟨2, 2, [(0, 1), (1, 1)]⟩)).tp
      + (confusionOf (overlapRowOf ⟨2, 2, [(0, 0), (0, 1)]⟩ ⟨2, 2, [(0, 1), (1, 1)]⟩)).fp
      + (confusionOf (overlapRowOf ⟨2, 2, [(0, 0), (0, 1)]⟩ ⟨2, 2, [(0, 1), (1, 1)]⟩)).fn
      + (confusionOf (overlapRowOf ⟨2, 2, [(0, 0), (0, 1)]⟩ ⟨2, 2, [(0, 1), (1, 1)]⟩)).tn
      = ((overlapRowOf ⟨2, 2, [(0, 0), (0, 1)]⟩ ⟨2, 2, [(0, 1), (1, 1)]⟩).totalPossible : Int) :=
  confusion_sum_eq_totalPossible ⟨2, 2, [(0, 0), (0, 1)]⟩ ⟨2, 2, [(0, 1), (1, 1)]⟩ rfl rfl

/-- C10: the overlap count of an emitted row never exceeds either side's
count, so the `max(0, ·)` clamps on FP and FN are identities on
pipeline-produced rows. -/
theorem overlap_le_min_and_clamps_noop (A B : BMat)
    (hr : A.nrows = B.nrows) (hc : A.ncols = B.ncols) :
    (overlapRowOf A B).overlapCount
        ≤ min (overlapRowOf A B).threeHopCount (overlapRowOf A B).oneHopCount
      ∧ (confusionOf (overlapRowOf A B)).fp
        = ((overlapRowOf A B).threeHopCount : Int) - (overlapRowOf A B).overlapCount
      ∧ (confusionOf (overlapRowOf A B)).fn
        = ((overlapRowOf A B).oneHopCount : Int) - (overlapRowOf A B).overlapCount := by
  have h1 := BMat.nnz_ewiseMult_le_left A B
  have h2 := BMat.nnz_ewiseMult_le_right A B hr hc
  simp only [confusionOf, overlapRowOf]
  omega

/-- Witness for C10 at a concrete pair of same-shaped matrices. -/
theorem overlap_le_min_and_clamps_noop_witness :
    (overlapRowOf ⟨2, 2, [(0, 0), (0, 1)]⟩ ⟨2, 2, [(0, 1), (1, 1)]⟩).overlapCount
        ≤ min (overlapRowOf ⟨2, 2, [(0, 0), (0, 1)]⟩ ⟨2, 2, [(0, 1), (1, 1)]⟩).threeHopCount
            (overlapRowOf ⟨2, 2, [(0, 0), (0, 1)]⟩ ⟨2, 2, [(0, 1), (1, 1)]⟩).oneHopCount
      ∧ (confusionOf (overlapRowOf ⟨2, 2, [(0, 0), (0, 1)]⟩ ⟨2, 2, [(0, 1), (1, 1)]⟩)).fp
        = ((overlapRowOf ⟨2, 2, [(0, 0), (0, 1)]⟩ ⟨2, 2, [(0, 1), (1, 1)]⟩).threeHopCount : Int)
          - (overlapRowOf ⟨2, 2, [(0, 0), (0, 1)]⟩ ⟨2, 2, [(0, 1), (1, 1)]⟩).overlapCount
      ∧ (confusionOf (overlapRowOf ⟨2, 2, [(0, 0), (0, 1)]⟩ ⟨2, 2, [(0, 1), (1, 1)]⟩)).fn
        = ((overlapRowOf ⟨2, 2, [(0, 0), (0, 1)]⟩ ⟨2, 2, [(0, 1), (1, 1)]⟩).oneHopCount : Int)
          - (overlapRowOf ⟨2, 2, [(0, 0), (0, 1)]⟩ ⟨2, 2, [(0, 1), (1, 1)]⟩).overlapCount :=
  overlap_le_min_and_clamps_noop ⟨2, 2, [(0, 0), (0, 1)]⟩ ⟨2, 2, [(0, 1), (1, 1)]⟩ rfl rfl

/-- Witness for C5 at a concrete chain of matrices. -/
theorem forward_reverse_nnz_witness :
    (mxm (mxm ⟨1, 2, [(0, 0)]⟩ ⟨2, 2, [(0, 1)]⟩) ⟨2, 1, [(1, 0)]⟩).nnz
      = (mxm (mxm (BMat.T ⟨2, 1, [(1, 0)]⟩) (BMat.T ⟨2, 2, [(0, 1)]⟩))
          (BMat.T ⟨1, 2, [(0, 0)]⟩)).nnz :=
  forward_reverse_nnz ⟨1, 2, [(0, 0)]⟩ ⟨2, 2, [(0, 1)]⟩ ⟨2, 1, [(1, 0)]⟩
    (by decide) (by decide) (by decide) rfl rfl

theorem pyDiv_nonneg {num den : ℚ} (h1 : 0 ≤ num) (h2 : 0 ≤ den) :
    0 ≤ pyDiv num den := by
  unfold pyDiv
  split
  · exact div_nonneg h1 h2
  · exact le_refl 0

/-- The likelihood-ratio branch of calculate_metrics is the +inf sentinel
exactly when its (nonnegative) denominator is zero. -/
theorem fvalRatio_inf_iff (num den : ℚ) (hd : 0 ≤ den) :
    (if 0 < den then FVal.val (num / den) else FVal.inf) = FVal.inf
      ↔ den = 0 := by
  split_ifs with h
  · simp [h.ne']
  · simp [le_antisymm (not_lt.mp h) hd]

/-- C3 (amended): PLR is +inf exactly when its denominator FPR is zero and
NLR is +inf exactly when its denominator specificity is zero — whatever the
numerators are. -/
theorem plr_nlr_inf_iff_denominator_zero (tp fp fn tn : Nat) :
    ((calculate_metrics tp fp fn tn).PLR = FVal.inf
        ↔ (calculate_metrics tp fp fn tn).FPR = 0)
      ∧ ((calculate_metrics tp fp fn tn).NLR = FVal.inf
        ↔ (calculate_metrics tp fp fn tn).Specificity = 0) := by
  have hfpr : (0 : ℚ) ≤ pyDiv fp ((fp : ℚ) + tn) :=
    pyDiv_nonneg (by positivity) (by positivity)
  have hspec : (0 : ℚ) ≤ pyDiv tn ((tn : ℚ) + fp) :=
    pyDiv_nonneg (by positivity) (by positivity)
  exact ⟨fvalRatio_inf_iff _ _ hfpr, fvalRatio_inf_iff _ _ hspec⟩

/-- C3 counterexample: at the confusion matrix (tp,fp,fn,tn) = (0,0,0,1)
both the numerator TPR and the denominator FPR are zero, yet the code
yields PLR = +inf where the claim demands the 0.0 default. -/
theorem plr_inf_despite_zero_numerator :
    (calculate_metrics 0 0 0 1).PLR = FVal.inf
      ∧ (calculate_metrics 0 0 0 1).TPR = 0
      ∧ (calculate_metrics 0 0 0 1).FPR = 0 := by
  refine ⟨?_, ?_, ?_⟩ <;> norm_num [calculate_metrics, pyDiv]

/-- C8 counterexample: a chain whose forward first-stage intermediate is
nonempty and whose reverse first-stage intermediate is empty records no row
at all — the forward direction was measured but is not recorded. -/
theorem direction_skip_counterexample :
    (mxm (⟨1, 1, [(0, 0)]⟩ : BMat) ⟨1, 1, [(0, 0)]⟩).nnz ≠ 0
      ∧ (mxm (BMat.T ⟨1, 1, []⟩) (BMat.T (⟨1, 1, [(0, 0)]⟩ : BMat))).nnz = 0
      ∧ processChain ⟨1, 1, [(0, 0)]⟩ ⟨1, 1, [(0, 0)]⟩ ⟨1, 1, []⟩ = none := by
  decide

/-- C8 (amended): a sampled chain produces a recorded row iff both
first-stage intermediates are nonempty; an empty one on either side skips
the whole sample, so neither direction is recorded. -/
theorem chain_recorded_iff_both_intermediates_nonempty (m1 m2 m3 : BMat) :
    (processChain m1 m2 m3).isSome = true ↔
      (mxm m1 m2).nnz ≠ 0 ∧ (mxm m3.T m2.T).nnz ≠ 0 := by
  unfold processChain
  dsimp only
  split_ifs with h1 h2 <;> simp_all

theorem sum_map_add {α : Type} (l : List α) (f g : α → Nat) :
    (l.map (fun x => f x + g x)).sum = (l.map f).sum + (l.map g).sum := by
  induction l with
  | nil => rfl
  | cons a t ih =>
    simp only [List.map_cons, List.sum_cons, ih]
    omega

/-- Summing an indicator of one bucket over the full bucket list picks out
that bucket's value. -/
theorem bucketContribution (p : Bucket × Nat) :
    (bucketList.map (fun b => if p.1 == b then p.2 else 0)).sum = p.2 := by
  rcases p with ⟨b0, v⟩
  cases b0 <;> simp [bucketList]

/-- Splitting a tally list by bucket and re-summing loses nothing: every
entry's bucket occurs exactly once in the fixed bucket order. -/
theorem sum_over_buckets (l : List (Bucket × Nat)) :
    (bucketList.map
        (fun b => ((l.filter (fun p => p.1 == b)).map (fun p => p.2)).sum)).sum
      = (l.map (fun p => p.2)).sum := by
  induction l with
  | nil => rfl
  | cons p t ih =>
    have hexp : ∀ b : Bucket,
        (((p :: t).filter (fun q => q.1 == b)).map (fun q => q.2)).sum
          = (if p.1 == b then p.2 else 0)
            + ((t.filter (fun q => q.1 == b)).map (fun q => q.2)).sum := by
      intro b
      rw [List.filter_cons]
      split_ifs with h
      · simp [h]
      · simp [h]
    have hmap := List.map_congr_left (fun b _ => hexp b) (l := bucketList)
    rw [hmap, sum_map_add, bucketContribution, ih]
    simp

theorem flatMap_map_sum {α : Type} (l : List α) (F : α → List (Bucket × Nat)) :
    ((l.flatMap F).map (fun p => p.2)).sum
      = (l.map (fun a => ((F a).map (fun p => p.2)).sum)).sum := by
  induction l with
  | nil => rfl
  | cons a t ih =>
    simp only [List.flatMap_cons, List.map_append, List.sum_append,
      List.map_cons, List.sum_cons, ih]

/-- A filterMap that tallies exactly the lengths a flatMap produces keeps
the total: summed tallies equal the flattened length. -/
theorem sum_snd_filterMap_eq_length_flatMap {α β : Type}
    (f : α → Option (Bucket × Nat)) (g : α → List β)
    (hfg : ∀ a, (match f a with | some p => p.2 | none => 0) = (g a).length) :
    ∀ l : List α,
      ((l.filterMap f).map (fun p => p.2)).sum = (l.flatMap g).length := by
  intro l
  induction l with
  | nil => rfl
  | cons a t ih =>
    rw [List.flatMap_cons, List.length_append]
    cases hfa : f a with
    | none =>
      have h0 : (g a).length = 0 := by
        have h := hfg a
        rw [hfa] at h
        exact h.symm
      rw [List.filterMap_cons_none hfa, ih, h0]
      omega
    | some p =>
      have hp : p.2 = (g a).length := by
        have h := hfg a
        rw [hfa] at h
        exact h
      rw [List.filterMap_cons_some hfa, List.map_cons, List.sum_cons, ih, hp]

/-- The estimator's per-pair tally equals the number of triples the
Composer's inner loop reaches for that pair: both skip on dimension
mismatch and on an empty A@B, and otherwise range over the same Matrix3
candidates. -/
theorem estimator_pointwise (L : List RelMat) (e1 : RelMat) (e2 : RelMat) :
    (match estimatorPairContrib L e1 e2 with | some p => p.2 | none => 0)
      = ((if e1.mat.ncols == e2.mat.nrows then
            if (mxm e1.mat e2.mat).nnz == 0 then ([] : List (RelMat × RelMat × RelMat))
            else (bySourceType L e2.tgt).map (fun e3 => (e1, e2, e3))
          else []) : List (RelMat × RelMat × RelMat)).length := by
  unfold estimatorPairContrib
  dsimp only
  split_ifs with h1 h2 <;> simp

/-- C4 (amended): the estimator's bucket populations sum to the number of
(e1,e2,e3) triples whose innermost loop the Composer actually reaches —
the type join restricted to pairs with matching dimensions and a nonzero
first intermediate. -/
theorem size_buckets_sum_eq_reached (L : List RelMat) :
    (bucketList.map (size_buckets L)).sum = (enumTriplesReached L).length := by
  have h1 : (bucketList.map (size_buckets L)).sum
      = ((estimatorPairs L).map (fun p => p.2)).sum :=
    sum_over_buckets (estimatorPairs L)
  rw [h1]
  unfold estimatorPairs enumTriplesReached
  rw [flatMap_map_sum, List.length_flatMap]
  apply congrArg List.sum
  apply List.map_congr_left
  intro e1 _
  exact sum_snd_filterMap_eq_length_flatMap (estimatorPairContrib L e1) _
    (estimator_pointwise L e1) (bySourceType L e1.tgt)

/-- C4 counterexample: a catalog of three chained 1×1 empty relations.  The
lone type-join triple has an empty first intermediate, so the estimator's
bucket populations sum to 0 while the claimed enumeration has 1 triple. -/
theorem size_buckets_sum_counterexample :
    (bucketList.map (size_buckets emptyABCatalog)).sum = 0
      ∧ (enumTriples emptyABCatalog).length = 1 := by
  decide

theorem countIn_append (l1 l2 : List (Bucket × Nat)) (b : Bucket) :
    countIn (l1 ++ l2) b = countIn l1 b + countIn l2 b := by
  simp [countIn, List.filter_append]

theorem countIn_allocateMinimums_notMem (pop : Bucket → Nat) :
    ∀ (bs : List Bucket) (rem : Nat) (b : Bucket), b ∉ bs →
      countIn (allocateMinimums pop bs rem).1 b = 0 := by
  intro bs
  induction bs with
  | nil => intro rem b _; rfl
  | cons c cs ih =>
    intro rem b hb
    have hbc : b ≠ c := fun h => hb (h ▸ List.mem_cons_self c cs)
    have hbcs : b ∉ cs := fun h => hb (List.mem_cons_of_mem c h)
    unfold allocateMinimums
    split_ifs with hc
    · exact ih rem b hbcs
    · dsimp only
      have hfalse : (c == b) = false := beq_eq_false_iff_ne.mpr (Ne.symm hbc)
      simp only [countIn, List.filter_cons, hfalse]
      exact ih _ b hbcs

/-- When the budget covers the whole sum of per-bucket phase-1 targets,
the first pass hands every listed bucket exactly
`min(min_samples[bucket], population)`. -/
theorem countIn_allocateMinimums_mem (pop : Bucket → Nat) :
    ∀ (bs : List Bucket), bs.Nodup → ∀ (rem : Nat),
      (bs.map (fun b => min (min_samples b) (pop b))).sum ≤ rem →
      ∀ b ∈ bs, countIn (allocateMinimums pop bs rem).1 b
        = min (min_samples b) (pop b) := by
  intro bs
  induction bs with
  | nil => intro _ rem _ b hb; cases hb
  | cons c cs ih =>
    intro hnd rem hrem b hb
    obtain ⟨hc_notin, hnd_cs⟩ := List.nodup_cons.mp hnd
    rw [List.map_cons, List.sum_cons] at hrem
    unfold allocateMinimums
    split_ifs with hc
    · rcases List.mem_cons.mp hb with hbc | hbcs
      · subst hbc
        rw [countIn_allocateMinimums_notMem pop cs rem b hc_notin, hc]
        omega
      · exact ih hnd_cs rem (by omega) b hbcs
    · dsimp only
      rcases List.mem_cons.mp hb with hbc | hbcs
      · subst hbc
        have h0 := countIn_allocateMinimums_notMem pop cs
          (rem - min (min_samples b) (min (pop b) rem)) b hc_notin
        simp only [countIn, List.filter_cons, beq_self_eq_true, if_pos,
          List.map_cons, List.sum_cons]
        simp only [countIn] at h0
        rw [h0]
        omega
      · have hbc : b ≠ c := fun h => hc_notin (h ▸ hbcs)
        have hfalse : (c == b) = false := beq_eq_false_iff_ne.mpr (Ne.symm hbc)
        simp only [countIn, List.filter_cons, hfalse]
        have := ih hnd_cs (rem - min (min_samples c) (min (pop c) rem))
          (by omega) b hbcs
        simpa [countIn] using this

/-- C7 (amended): phase 1 walks buckets in the fixed order handing each
nonempty bucket min(minimum, population, remaining budget); whenever the
requested total covers the sum over buckets of min(minimum, population),
every bucket whose population reaches its minimum is allocated at least
that minimum, and the proportional phase only adds samples. -/
theorem minimum_allocation_given_budget (pop : Bucket → Nat)
    (total_samples : Nat)
    (hbudget : (bucketList.map (fun b => min (min_samples b) (pop b))).sum
      ≤ total_samples) :
    ∀ b : Bucket, min_samples b ≤ pop b →
      min_samples b ≤ generate_sample_counts pop total_samples b := by
  intro b hmin
  have hmem : b ∈ bucketList := by cases b <;> simp [bucketList]
  have hnd : bucketList.Nodup := by decide
  have h1 := countIn_allocateMinimums_mem pop bucketList hnd total_samples
    hbudget b hmem
  unfold generate_sample_counts
  rw [countIn_append, h1]
  omega

/-- Witness for the amended C7 at uniform populations of 1000 and budget
1500 (the phase-1 targets sum to 1000). -/
theorem minimum_allocation_given_budget_witness :
    ((bucketList.map (fun b => min (min_samples b) ((fun _ => 1000) b))).sum
        ≤ 1500)
      ∧ min_samples Bucket.small
        ≤ generate_sample_counts (fun _ => 1000) 1500 Bucket.small :=
  ⟨by decide,
   minimum_allocation_given_budget (fun _ => 1000) 1500 (by decide)
     Bucket.small (by decide)⟩

/-- C7 counterexample: populations tiny=400, small=200 with a total budget
of 100.  The small bucket's population matches its minimum of 200, yet the
budget is exhausted during the tiny bucket and small receives 0 samples. -/
theorem minimum_allocation_counterexample :
    min_samples Bucket.small ≤ starvedPops Bucket.small
      ∧ 0 < min_samples Bucket.small
      ∧ generate_sample_counts starvedPops 100 Bucket.small = 0 := by
  decide

/-- Every catalog entry's shape comes from its type's complete index: rows
from the source type's final size, columns from the target type's final
size — for forward matrices by construction, for reverse entries because
transposition swaps both the shape and the type key. -/
theorem all_matrices_shape (node_types : String → Option String)
    (edges : List Edge) :
    ∀ r ∈ all_matrices node_types edges,
      r.mat.nrows = typeSize node_types edges r.src
        ∧ r.mat.ncols = typeSize node_types edges r.tgt := by
  intro r hr
  unfold all_matrices at hr
  rw [List.mem_flatMap] at hr
  obtain ⟨r0, hr0, hcase⟩ := hr
  unfold build_matrices at hr0
  rw [List.mem_map] at hr0
  obtain ⟨k, hk, hkr⟩ := hr0
  subst hkr
  split at hcase
  · rw [List.mem_singleton] at hcase
    subst hcase
    exact ⟨rfl, rfl⟩
  · rcases List.mem_cons.mp hcase with h | h
    · subst h
      exact ⟨rfl, rfl⟩
    · rw [List.mem_singleton] at h
      subst h
      exact ⟨rfl, rfl⟩

/-- C9: in one run, any two emitted relation matrices whose types chain are
dimension-compatible, and the composed intermediate stays compatible with a
third chained matrix — the skip branches for dimension mismatch can never
fire on type-compatible pairs of the same catalog. -/
theorem chained_matrices_dims_compatible (node_types : String → Option String)
    (edges : List Edge) (m1 m2 : RelMat)
    (h1 : m1 ∈ all_matrices node_types edges)
    (h2 : m2 ∈ all_matrices node_types edges)
    (hchain : m1.tgt = m2.src) :
    m1.mat.ncols = m2.mat.nrows
      ∧ ∀ m3 ∈ all_matrices node_types edges, m2.tgt = m3.src →
          (mxm m1.mat m2.mat).ncols = m3.mat.nrows := by
  have s1 := all_matrices_shape node_types edges m1 h1
  have s2 := all_matrices_shape node_types edges m2 h2
  constructor
  · rw [s1.2, s2.1, hchain]
  · intro m3 h3 hchain2
    have s3 := all_matrices_shape node_types edges m3 h3
    rw [mxm_ncols, s2.2, s3.1, hchain2]

/-- Witness for C9 on a concrete three-edge graph. -/
theorem chained_matrices_dims_compatible_witness :
    (RelMat.mk "A" "p" "B" 'F' ⟨1, 1, [(0, 0)]⟩).mat.ncols
      = (RelMat.mk "B" "q" "C" 'F' ⟨1, 1, [(0, 0)]⟩).mat.nrows :=
  (chained_matrices_dims_compatible ntWitness edgesWitness
    (RelMat.mk "A" "p" "B" 'F' ⟨1, 1, [(0, 0)]⟩)
    (RelMat.mk "B" "q" "C" 'F' ⟨1, 1, [(0, 0)]⟩)
    (by decide) (by decide) rfl).1
